import Mathlib

/-!
Verification of the PN532 NFC writer core (`nfc_controller_writer.py`):
frame codec, tag detector, page write engine, dump loader and write
orchestrator, shallowly embedded as executable Lean definitions.
Bytes are modelled as `Nat` (values kept below 256 by hypotheses where a
claim needs them); bus I/O is modelled by quantifying over the raw byte
sequences the transport returns.
-/

/-- Models Python `(~n + 1) & 0xFF` on a nonnegative arbitrary-precision
integer `n`, i.e. `(-n) mod 256`. -/
def negByte (n : Nat) : Nat := (256 - n % 256) % 256

/-- Constant `PN532_HOSTTOPN532 = 0xD4` from the source. -/
def PN532_HOSTTOPN532 : Nat := 0xD4

/-- Embedding of `NFCWriter._build_command(cmd, data)`: frame is
`[preamble, start0, start1, length, lcs, 0xD4, cmd] ++ data ++ [dcs, postamble]`
with `length = len(data) + 1`, `lcs = (~length+1) & 0xFF` and
`dcs = (~(0xD4 + cmd + sum(data)) + 1) & 0xFF`. -/
def build_command (cmd : Nat) (data : List Nat) : List Nat :=
  let length := data.length + 1
  let lcs := negByte length
  let dcs := negByte (PN532_HOSTTOPN532 + cmd + data.sum)
  [0x00, 0x00, 0xFF, length, lcs, PN532_HOSTTOPN532, cmd] ++ data ++ [dcs, 0x00]

theorem negByte_eq_int (n : Nat) : (negByte n : Int) = (-(n : Int)) % 256 := by
  unfold negByte
  omega

theorem build_command_length (cmd : Nat) (data : List Nat) :
    (build_command cmd data).length = data.length + 9 := by
  simp [build_command]

/-- Element of an appended two-element tail at index `l.length`. -/
theorem getD_append_self {α : Type} (l : List α) (a b d : α) :
    (l ++ [a, b]).getD l.length d = a := by
  rw [List.getD_append_right l [a, b] d l.length (le_refl _)]
  simp

/-- Element at index `7 + data.length` of a frame-shaped list: the first
byte of the two-byte trailer. -/
theorem getD_seven_append {α : Type} (a b c d' e f g x y d : α) (data : List α) :
    (([a, b, c, d', e, f, g] ++ (data ++ [x, y]))).getD (7 + data.length) d = x := by
  rw [List.getD_append_right _ _ _ _ (by simp)]
  simpa using getD_append_self data x y d

/-- C1: for every command byte and data of length at most 255 (all bytes),
the emitted frame's length byte is `len(data)+1`, its length-checksum
equals `(-(length)) mod 256`, its data-checksum equals
`(-(0xD4 + command + sum(data))) mod 256`, and re-deriving both checksums
from the frame's own length, direction, command and data bytes reproduces
the emitted checksum bytes exactly (round-trip law). -/
theorem C1_build_frame_checksum_roundtrip (cmd : Nat) (data : List Nat)
    (hcmd : cmd ≤ 255) (hlen : data.length ≤ 255) (hbytes : ∀ b ∈ data, b ≤ 255) :
    (build_command cmd data).getD 3 0 = data.length + 1 ∧
    ((build_command cmd data).getD 4 0 : Int) = (-((data.length + 1 : Nat) : Int)) % 256 ∧
    ((build_command cmd data).getD (7 + data.length) 0 : Int) =
      (-((0xD4 : Int) + (cmd : Int) + ((data.sum : Nat) : Int))) % 256 ∧
    (build_command cmd data).getD 4 0 =
      negByte ((build_command cmd data).getD 3 0) ∧
    (build_command cmd data).getD (7 + data.length) 0 =
      negByte ((build_command cmd data).getD 5 0 + (build_command cmd data).getD 6 0 +
        (((build_command cmd data).drop 7).take ((build_command cmd data).getD 3 0 - 1)).sum) := by
  have hframe : build_command cmd data =
      [0x00, 0x00, 0xFF, data.length + 1, negByte (data.length + 1),
        PN532_HOSTTOPN532, cmd] ++
        (data ++ [negByte (PN532_HOSTTOPN532 + cmd + data.sum), 0x00]) := by
    simp [build_command]
  have hdrop : (build_command cmd data).drop 7 =
      data ++ [negByte (PN532_HOSTTOPN532 + cmd + data.sum), 0x00] := by
    rw [hframe]; rfl
  have hget3 : (build_command cmd data).getD 3 0 = data.length + 1 := by
    rw [hframe]; rfl
  have hget4 : (build_command cmd data).getD 4 0 = negByte (data.length + 1) := by
    rw [hframe]; rfl
  have hget5 : (build_command cmd data).getD 5 0 = PN532_HOSTTOPN532 := by
    rw [hframe]; rfl
  have hget6 : (build_command cmd data).getD 6 0 = cmd := by
    rw [hframe]; rfl
  have hgetd : (build_command cmd data).getD (7 + data.length) 0 =
      negByte (PN532_HOSTTOPN532 + cmd + data.sum) := by
    rw [hframe]
    exact getD_seven_append _ _ _ _ _ _ _ _ _ _ data
  have htake : ((build_command cmd data).drop 7).take data.length = data := by
    rw [hdrop]
    exact List.take_left data _
  refine ⟨hget3, ?_, ?_, ?_, ?_⟩
  · rw [hget4, negByte_eq_int]
  · rw [hgetd, negByte_eq_int]
    norm_num [PN532_HOSTTOPN532]
  · rw [hget4, hget3]
  · rw [hgetd, hget3, hget5, hget6]
    have : data.length + 1 - 1 = data.length := by omega
    rw [this, htake]

theorem C1_witness :
    (build_command 0x4A [0x01, 0x00]).getD 3 0 = 3 ∧
    ((build_command 0x4A [0x01, 0x00]).getD 4 0 : Int) = (-((3 : Nat) : Int)) % 256 ∧
    ((build_command 0x4A [0x01, 0x00]).getD (7 + 2) 0 : Int) =
      (-((0xD4 : Int) + ((0x4A : Nat) : Int) + (((([0x01, 0x00] : List Nat).sum : Nat)) : Int))) % 256 ∧
    (build_command 0x4A [0x01, 0x00]).getD 4 0 =
      negByte ((build_command 0x4A [0x01, 0x00]).getD 3 0) ∧
    (build_command 0x4A [0x01, 0x00]).getD (7 + 2) 0 =
      negByte ((build_command 0x4A [0x01, 0x00]).getD 5 0 + (build_command 0x4A [0x01, 0x00]).getD 6 0 +
        (((build_command 0x4A [0x01, 0x00]).drop 7).take ((build_command 0x4A [0x01, 0x00]).getD 3 0 - 1)).sum) :=
  C1_build_frame_checksum_roundtrip 0x4A [0x01, 0x00] (by decide) (by decide) (by decide)

/-- C2 counterexample: the frame the claim predicts for
`buildFrame(0x4A, [0x01, 0x00])` has data-checksum byte `0xB0`, but the code
emits a different frame (its data checksum is `0xE1`). -/
theorem C2_counterexample :
    build_command 0x4A [0x01, 0x00] ≠
      [0x00, 0x00, 0xFF, 0x03, 0xFD, 0xD4, 0x4A, 0x01, 0x00, 0xB0, 0x00] := by
  decide

/-- C2 amended: `buildFrame(0x4A, [0x01, 0x00])` yields the 11-byte frame
`00 00 FF 03 FD D4 4A 01 00 E1 00`; the data checksum is
`(-(0xD4 + 0x4A + 0x01 + 0x00)) mod 256 = 0xE1`, not `0xB0`. -/
theorem C2_amended_frame :
    build_command 0x4A [0x01, 0x00] =
      [0x00, 0x00, 0xFF, 0x03, 0xFD, 0xD4, 0x4A, 0x01, 0x00, 0xE1, 0x00] := by
  decide

/-- Models `NFCWriter._read_response` post-processing: the raw bytes read
from the bus have a single leading ready-marker byte `0x01` stripped when
present. An empty read is kept empty (the source raises on indexing an
empty buffer and returns `None`, which downstream code treats like an
empty response). -/
def read_response_strip (resp : List Nat) : List Nat :=
  match resp with
  | 1 :: rest => rest
  | _ => resp

/-- Models the UID-length validity test `4 <= uid_length <= 10` from
`NFCWriter.detect_tag`. -/
def valid_uid_length (n : Nat) : Bool := decide (4 ≤ n) && decide (n ≤ 10)

/-- Models the offset-scanning loop of `NFCWriter.detect_tag`: starting at
`offset` with `w` offsets left in the scan window, look for a byte in
`1..4` (number of targets), then a UID length byte at `offset + 5` in
`4..10`, then slice that many UID bytes; otherwise advance the offset. -/
def detect_scan (resp : List Nat) : Nat → Nat → Option (List Nat)
  | _, 0 => none
  | offset, w + 1 =>
    let b := resp.getD offset 0
    if 0 < b ∧ b < 5 then
      let uid_offset := offset + 5
      if uid_offset < resp.length then
        let uid_length := resp.getD uid_offset 0
        if valid_uid_length uid_length then
          let uid := (resp.drop (uid_offset + 1)).take uid_length
          if uid.length = uid_length then some uid
          else detect_scan resp (offset + 1) w
        else detect_scan resp (offset + 1) w
      else detect_scan resp (offset + 1) w
    else detect_scan resp (offset + 1) w

/-- Models `NFCWriter.detect_tag` on the raw bytes the transport returned
for the InListPassiveTarget exchange: strip the ready marker, treat an
empty response as no tag, then scan the first `min(10, len(response))`
offsets for a plausible target count and UID. -/
def detect_tag (raw : List Nat) : Option (List Nat) :=
  if (read_response_strip raw).isEmpty then none
  else detect_scan (read_response_strip raw) 0 (min 10 (read_response_strip raw).length)

/-- Models the success test of `NFCWriter.write_page`: response longer
than 8 bytes with `0xD5 0x41 0x00` at offsets 6..8. -/
def check_write_response (resp : List Nat) : Bool :=
  decide (8 < resp.length) && (resp.getD 6 0 == 0xD5) &&
    (resp.getD 7 0 == 0x41) && (resp.getD 8 0 == 0x00)

/-- Models `NFCWriter.write_page(page_num, data)` given the raw bytes the
transport returns for this exchange: data of length other than 4 raises a
`ValueError` that the function's own handler turns into `False`; otherwise
the result is the success-marker test on the stripped response. -/
def write_page (data : List Nat) (raw : List Nat) : Bool :=
  if data.length ≠ 4 then false
  else check_write_response (read_response_strip raw)

/-- Models the page-data slicing of `NFCWriter.write_amiibo`:
`raw_data[page*4 : page*4+4]`, zero padded to 4 bytes when short. -/
def page_slice (raw_data : List Nat) (page : Nat) : List Nat :=
  let page_data := (raw_data.drop (page * 4)).take 4
  if page_data.length < 4 then page_data ++ List.replicate (4 - page_data.length) 0
  else page_data

/-- Models `int((page - 4) / (130 - 4) * 100)` from `write_amiibo`. For
`0 ≤ page - 4 ≤ 125` the double-precision expression truncates to the
exact rational floor, since the true value is never within `1e-13` of a
larger integer, so the Nat division is exact. -/
def progressOf (page : Nat) : Nat := ((page - 4) * 100) / 126

/-- Observable trace of the page-writing loop of `write_amiibo`: the
single-page writes issued (page number and 4-byte payload, in order), the
progress-callback values delivered, the page at which the loop aborted (if
any), and the boolean the loop produces. -/
structure PagesTrace where
  pageWrites : List (Nat × List Nat)
  progressCalls : List Nat
  failedPage : Option Nat
  ok : Bool
deriving DecidableEq

/-- Models the `for page in range(4, 130)` loop body of
`NFCWriter.write_amiibo` over an explicit list of page numbers:
slice-and-pad the page data, issue the write, on success record the
progress callback and continue, on failure abort with the failing page.
`pageResp page` is the raw byte sequence the transport returns for the
write exchange on `page`. -/
def write_pages (raw_data : List Nat) (pageResp : Nat → List Nat) : List Nat → PagesTrace
  | [] => ⟨[], [], none, true⟩
  | page :: rest =>
    let pd := page_slice raw_data page
    if write_page pd (pageResp page) then
      let t := write_pages raw_data pageResp rest
      ⟨(page, pd) :: t.pageWrites, progressOf page :: t.progressCalls, t.failedPage, t.ok⟩
    else
      ⟨[(page, pd)], [], some page, false⟩

/-- Observable trace of one `write_amiibo` call: whether the detect
exchange was issued, plus the page-loop trace and outcome. -/
structure WriteTrace where
  detectIssued : Bool
  pageWrites : List (Nat × List Nat)
  progressCalls : List Nat
  failedPage : Option Nat
  result : Bool
deriving DecidableEq

/-- Models `NFCWriter.write_amiibo(amiibo_data, progress_callback)`:
reject images shorter than 540 bytes, then detect a tag (one attempt),
then run the page loop over `range(4, 130)`. `detectRaw` and `pageResp`
are the raw bytes the transport returns for the detect exchange and for
each page-write exchange. -/
def write_amiibo (raw_data : List Nat) (detectRaw : List Nat)
    (pageResp : Nat → List Nat) : WriteTrace :=
  if raw_data.length < 540 then ⟨false, [], [], none, false⟩
  else
    match detect_tag detectRaw with
    | none => ⟨true, [], [], none, false⟩
    | some _ =>
      let t := write_pages raw_data pageResp (List.range' 4 126)
      ⟨true, t.pageWrites, t.progressCalls, t.failedPage, t.ok⟩

/-- Models the loaded-amiibo dictionary: the 540-byte raw image plus the
metadata fields the loader stores (`uid` is kept as its byte sequence;
the source stores its upper-case hex rendering). -/
structure Amiibo where
  raw_data : List Nat
  uid : List Nat
  character : List Char
deriving DecidableEq

/-- Models `AmiiboWriter.write_to_tag`: with no current Amiibo loaded the
call reports failure without any bus exchange; otherwise it runs
`write_amiibo` on the current image. The unchanged current-Amiibo slot is
returned alongside the trace. -/
def write_to_tag (current : Option Amiibo) (detectRaw : List Nat)
    (pageResp : Nat → List Nat) : WriteTrace × Option Amiibo :=
  match current with
  | none => (⟨false, [], [], none, false⟩, none)
  | some a => (write_amiibo a.raw_data detectRaw pageResp, some a)

/-- The zero-padded page slice always has exactly 4 bytes. -/
theorem page_slice_length (raw_data : List Nat) (page : Nat) :
    (page_slice raw_data page).length = 4 := by
  simp only [page_slice]
  split
  next h => simp only [List.length_append, List.length_replicate]; omega
  next h => simp only [List.length_take] at h ⊢; omega

/-- Every page number appearing in the issued-write trace of the page loop
came from the iterated page list. -/
theorem mem_pageWrites_mem (raw_data : List Nat) (pageResp : Nat → List Nat) :
    ∀ pages p d, (p, d) ∈ (write_pages raw_data pageResp pages).pageWrites →
      p ∈ pages := by
  intro pages
  induction pages with
  | nil => intro p d h; simp [write_pages] at h
  | cons page rest ih =>
    intro p d h
    by_cases hw : write_page (page_slice raw_data page) (pageResp page) = true
    · simp [write_pages, hw] at h
      rcases h with ⟨rfl, -⟩ | h1
      · exact List.mem_cons_self _ _
      · exact List.mem_cons_of_mem _ (ih p d h1)
    · simp [write_pages, hw] at h
      rcases h with ⟨rfl, -⟩
      exact List.mem_cons_self _ _

/-- C3: during a `write_amiibo` attempt, for every input image and every
byte sequence the transport returns for the detect exchange and for each
page-write exchange, every single-page write issued targets a page in
`[4, 130)`: the factory-UID pages 0-2 and the lock/configuration pages
130-134 are never written. -/
theorem C3_write_targets_in_range (raw_data detectRaw : List Nat)
    (pageResp : Nat → List Nat) (p : Nat) (d : List Nat)
    (h : (p, d) ∈ (write_amiibo raw_data detectRaw pageResp).pageWrites) :
    4 ≤ p ∧ p < 130 := by
  have hp : p ∈ List.range' 4 126 := by
    unfold write_amiibo at h
    split at h
    · simp at h
    · split at h
      · simp at h
      · exact mem_pageWrites_mem raw_data pageResp _ p d h
  rcases List.mem_range'.mp hp with ⟨i, hi, rfl⟩
  omega

/-- Raw bytes with the `0xD5 0x41 0x00` success marker at offsets 6..8 of
the (unstripped) response, used as a concrete successful write exchange. -/
def okResp : List Nat := [0x00, 0x00, 0x00, 0x00, 0x00, 0x00, 0xD5, 0x41, 0x00, 0x00]

/-- Raw detect-exchange bytes whose ready marker is followed by a target
count of 1 and a 4-byte UID `AA BB CC DD` at the scanned offsets. -/
def detectOkRaw : List Nat :=
  [0x01, 0x01, 0x00, 0x00, 0x00, 0x00, 0x04, 0xAA, 0xBB, 0xCC, 0xDD]

set_option maxRecDepth 4000 in
theorem C3_witness : 4 ≤ 4 ∧ 4 < 130 :=
  C3_write_targets_in_range (List.replicate 540 0) detectOkRaw (fun _ => []) 4
    (List.replicate 4 0) (by decide)

/-- Every payload in the issued-write trace of the page loop has exactly
4 bytes. -/
theorem write_pages_payload_four (raw_data : List Nat) (pageResp : Nat → List Nat) :
    ∀ pages, ((write_pages raw_data pageResp pages).pageWrites.all
      fun pd => pd.2.length == 4) = true := by
  intro pages
  induction pages with
  | nil => rfl
  | cons page rest ih =>
    by_cases hw : write_page (page_slice raw_data page) (pageResp page) = true
    · simp [write_pages, hw, page_slice_length]
      intro a b hmem
      have := List.all_eq_true.mp ih _ hmem
      simpa using this
    · simp [write_pages, hw, page_slice_length]

/-- If every page-write exchange carries the success marker, the page loop
reports success. -/
theorem write_pages_all_ok (raw_data : List Nat) (pageResp : Nat → List Nat) :
    ∀ pages, (pages.all fun p => write_page (page_slice raw_data p) (pageResp p)) = true →
      (write_pages raw_data pageResp pages).ok = true := by
  intro pages
  induction pages with
  | nil => intro _; rfl
  | cons page rest ih =>
    intro h
    rw [List.all_cons, Bool.and_eq_true] at h
    simp [write_pages, h.1, ih h.2]

/-- C4: when the image handed to the page loop is shorter than the
`[4, 130)` page range requires (fewer than 520 bytes), the loop does not
fail: short slices are zero padded, every issued page write carries
exactly 4 bytes, and with success responses throughout the loop completes
successfully. -/
theorem C4_short_image_pads (raw_data : List Nat) (pageResp : Nat → List Nat)
    (hshort : raw_data.length < 520)
    (hok : ((List.range' 4 126).all
      fun p => write_page (page_slice raw_data p) (pageResp p)) = true) :
    ((write_pages raw_data pageResp (List.range' 4 126)).pageWrites.all
      fun pd => pd.2.length == 4) = true ∧
    (write_pages raw_data pageResp (List.range' 4 126)).ok = true :=
  ⟨write_pages_payload_four raw_data pageResp _, write_pages_all_ok raw_data pageResp _ hok⟩

set_option maxRecDepth 8000 in
theorem C4_witness :
    ((write_pages (List.replicate 18 7) (fun _ => okResp) (List.range' 4 126)).pageWrites.all
      fun pd => pd.2.length == 4) = true ∧
    (write_pages (List.replicate 18 7) (fun _ => okResp) (List.range' 4 126)).ok = true :=
  C4_short_image_pads (List.replicate 18 7) (fun _ => okResp) (by decide) (by decide)

/-- Round-to-nearest (half up) of `num/den * 100`, the formula the spec's
progress clause uses. -/
def specRoundPct (num den : Nat) : Nat := (num * 100 * 2 + den) / (den * 2)

/-- Transport oracle for the scenario of C5: success markers for pages
before 50, a marker-free response on page 50. -/
def c5Resp (p : Nat) : List Nat := if p < 50 then okResp else []

/-- The write-attempt trace of the C5 scenario on an all-zero 540-byte
image. -/
def c5Trace : WriteTrace := write_amiibo (List.replicate 540 0) detectOkRaw c5Resp

set_option maxRecDepth 8000 in
/-- C5 counterexample: in the claimed scenario (page 50 of the 126-page
pass fails, all earlier pages succeed) the failing page is 50 and the
progress callback ran exactly 46 times as claimed, but the last progress
value delivered is 35, not `round(46/126*100) = 37` (nor 36 under any
other tie-breaking): the code computes `int((49-4)/126*100) = 35` from the
last successful page index with truncation. -/
theorem C5_counterexample :
    c5Trace.failedPage = some 50 ∧ c5Trace.progressCalls.length = 46 ∧
    c5Trace.progressCalls.getLast? = some 35 ∧ specRoundPct 46 126 = 37 ∧
    (35 : Nat) ≠ 37 ∧ (35 : Nat) ≠ 36 := by
  decide

set_option maxRecDepth 8000 in
/-- C5 amended: in that scenario the write returns the failure outcome
identifying page 50, the progress callback was invoked exactly 46 times,
and the last value passed equals `int((49 - 4) / 126 * 100) = 35`,
computed from the last successful page index 49 by truncation. -/
theorem C5_amended_scenario :
    c5Trace.result = false ∧ c5Trace.failedPage = some 50 ∧
    c5Trace.progressCalls.length = 46 ∧
    c5Trace.progressCalls.getLast? = some (((49 - 4) * 100) / 126) := by
  decide

/-- Transport oracle for the C6 counterexample: pages 4 and 5 succeed,
page 6 fails. -/
def c6Resp (p : Nat) : List Nat := if p < 6 then okResp else []

set_option maxRecDepth 8000 in
/-- C6 counterexample: in a run where pages 4 and 5 succeed, the two
progress values delivered are 0 and 0, but the claim's formula
`round((page - firstPage) / (lastPageExclusive - firstPage) * 100)` gives
`round(1/126*100) = 1` for the second call (page 5): the code truncates
with `int`, it does not round. -/
theorem C6_counterexample :
    (write_amiibo (List.replicate 540 0) detectOkRaw c6Resp).progressCalls = [0, 0] ∧
    specRoundPct 1 126 = 1 ∧ (0 : Nat) ≠ 1 := by
  decide

/-- `progressOf` is monotone in the page index. -/
theorem progressOf_mono {a b : Nat} (h : a ≤ b) : progressOf a ≤ progressOf b :=
  Nat.div_le_div_right (Nat.mul_le_mul_right _ (Nat.sub_le_sub_right h 4))

/-- The progress values of a page-loop run over `range' s n` are the
image under `progressOf` of the first `k` pages, for the length `k` of the
successful prefix. -/
theorem write_pages_progress_prefix (raw_data : List Nat) (pageResp : Nat → List Nat) :
    ∀ n s, ∃ k, k ≤ n ∧
      (write_pages raw_data pageResp (List.range' s n)).progressCalls =
        (List.range' s k).map progressOf := by
  intro n
  induction n with
  | zero => exact fun s => ⟨0, le_refl _, rfl⟩
  | succ m ih =>
    intro s
    by_cases hw : write_page (page_slice raw_data s) (pageResp s) = true
    · obtain ⟨k, hk, hcalls⟩ := ih (s + 1)
      refine ⟨k + 1, by omega, ?_⟩
      rw [List.range'_succ]
      simp [write_pages, hw, hcalls, List.range'_succ]
    · refine ⟨0, by omega, ?_⟩
      rw [List.range'_succ]
      simp [write_pages, hw]

/-- Mapping `progressOf` over consecutive pages yields a non-decreasing
list. -/
theorem chain_progress_range' : ∀ (k s : Nat),
    List.Chain' (· ≤ ·) ((List.range' s k).map progressOf) := by
  intro k
  induction k with
  | zero => intro s; simp
  | succ m ih =>
    intro s
    rw [List.range'_succ, List.map_cons]
    rw [List.chain'_cons']
    refine ⟨?_, ih (s + 1)⟩
    intro y hy
    cases m with
    | zero => simp at hy
    | succ j =>
      rw [List.range'_succ, List.map_cons] at hy
      simp only [List.head?_cons, Option.mem_def, Option.some.injEq] at hy
      rw [← hy]
      exact progressOf_mono (by omega)

/-- C6 amended: for every image and every sequence of transport responses,
the progress values delivered during one write attempt are monotonically
non-decreasing, and the i-th value equals
`int((page - firstPage) / (lastPageExclusive - firstPage) * 100)`
with `page = 4 + i`, i.e. `(i * 100) / 126` by truncation — not the
claimed rounding. -/
theorem C6_amended_progress (raw_data detectRaw : List Nat) (pageResp : Nat → List Nat) :
    List.Chain' (· ≤ ·) (write_amiibo raw_data detectRaw pageResp).progressCalls ∧
    ∀ i v, (write_amiibo raw_data detectRaw pageResp).progressCalls.get? i = some v →
      v = (i * 100) / 126 := by
  have hmain : ∀ t : PagesTrace,
      t = write_pages raw_data pageResp (List.range' 4 126) →
      List.Chain' (· ≤ ·) t.progressCalls ∧
      ∀ i v, t.progressCalls.get? i = some v → v = (i * 100) / 126 := by
    intro t ht
    obtain ⟨k, hk, hcalls⟩ := write_pages_progress_prefix raw_data pageResp 126 4
    rw [← ht] at hcalls
    constructor
    · rw [hcalls]; exact chain_progress_range' k 4
    · intro i v hv
      rw [hcalls] at hv
      rw [List.get?_map] at hv
      by_cases hik : i < k
      · rw [List.get?_range' _ _ hik] at hv
        simp only [Option.map_some', Option.some.injEq] at hv
        rw [← hv]
        simp [progressOf]
      · rw [List.get?_eq_none.mpr (by simp; omega)] at hv
        simp at hv
  unfold write_amiibo
  split
  · exact ⟨List.chain'_nil, by intro i v hv; simp at hv⟩
  · split
    · exact ⟨List.chain'_nil, by intro i v hv; simp at hv⟩
    · exact hmain _ rfl

set_option maxRecDepth 8000 in
theorem C6_witness :
    List.Chain' (· ≤ ·)
      (write_amiibo (List.replicate 540 0) detectOkRaw c6Resp).progressCalls ∧
    (0 : Nat) = (1 * 100) / 126 :=
  ⟨(C6_amended_progress (List.replicate 540 0) detectOkRaw c6Resp).1,
    by
      have h := (C6_amended_progress (List.replicate 540 0) detectOkRaw c6Resp).2 1 0
      exact h (by decide)⟩

/-- On a response whose bytes are all zero, the offset scan never finds a
plausible target-count byte and returns `none`. -/
theorem detect_scan_all_zero (resp : List Nat) (hz : ∀ b ∈ resp, b = 0) :
    ∀ off w, detect_scan resp off w = none := by
  intro off w
  induction w generalizing off with
  | zero => rfl
  | succ m ih =>
    have hb : ∀ j : Nat, resp[j]?.getD 0 = 0 := by
      intro j
      rcases Nat.lt_or_ge j resp.length with h | h
      · rw [List.getElem?_eq_getElem h]
        exact hz _ (List.getElem_mem h)
      · rw [List.getElem?_eq_none h]
        rfl
    rw [detect_scan]
    simp [hb, ih]

/-- C7: `detect_tag` returns `None` as a normal outcome (it is a total
function into `Option`) whenever no plausible target pattern exists in the
scanned window: an all-zero response buffer of any length yields `None`,
and the specific detection response `01 00 00 FF 02 FE D5 4B 00 00`
(no target-count byte in `1..4` followed by a valid UID length) also
yields `None`. -/
theorem C7_detect_none :
    (∀ n, detect_tag (List.replicate n 0) = none) ∧
    detect_tag [0x01, 0x00, 0x00, 0xFF, 0x02, 0xFE, 0xD5, 0x4B, 0x00, 0x00] = none := by
  constructor
  · intro n
    have hstrip : read_response_strip (List.replicate n 0) = List.replicate n 0 := by
      cases n with
      | zero => rfl
      | succ m => rfl
    unfold detect_tag
    rw [hstrip]
    split
    · rfl
    · exact detect_scan_all_zero _ (fun b hb => List.eq_of_mem_replicate hb) 0 _
  · decide

/-- C8: calling the write operation with no image ever loaded returns the
failure outcome with no bus exchange at all (no detect, no page writes, no
progress callbacks) and leaves the orchestrator's current-image state
unchanged. -/
theorem C8_no_image_no_bus (detectRaw : List Nat) (pageResp : Nat → List Nat) :
    write_to_tag none detectRaw pageResp =
      (⟨false, [], [], none, false⟩, none) := rfl

/-- Splits a character list at every occurrence of `sep`, keeping empty
segments, like Python `str.split(sep)` for a one-character separator. -/
def splitOnChar (sep : Char) : List Char → List (List Char)
  | [] => [[]]
  | c :: cs =>
    match splitOnChar sep cs with
    | [] => [[]]
    | seg :: segs => if c = sep then [] :: seg :: segs else (c :: seg) :: segs

/-- Boolean test that `p` is an initial segment of `l`, like Python
`str.startswith`. -/
def startsWithChars : List Char → List Char → Bool
  | [], _ => true
  | _ :: _, [] => false
  | p :: ps, c :: cs => p == c && startsWithChars ps cs

/-- Models Python `str.strip()`: remove leading and trailing whitespace
(Lean `Char.isWhitespace` covers space, tab, carriage return and newline;
Python additionally strips the rare `\f`/`\v`, which never affects the
properties proved here). -/
def trimChars (l : List Char) : List Char :=
  ((l.dropWhile Char.isWhitespace).reverse.dropWhile Char.isWhitespace).reverse

/-- Models Python `str.split(sep, 1)` for a one-character separator when
at least one occurrence exists: the text before the first `sep` and all of
the text after it; `none` when `sep` does not occur (Python returns a
one-element list there, and the source guards on `len(parts) >= 2`). -/
def splitFirst (sep : Char) : List Char → Option (List Char × List Char)
  | [] => none
  | c :: cs =>
    if c = sep then some ([], cs)
    else
      match splitFirst sep cs with
      | some (a, b) => some (c :: a, b)
      | none => none

/-- Helper of `splitWS`: accumulates the current (reversed) token. -/
def splitWSAux : List Char → List Char → List (List Char)
  | acc, [] => if acc.isEmpty then [] else [acc.reverse]
  | acc, c :: cs =>
    if c.isWhitespace then
      if acc.isEmpty then splitWSAux [] cs else acc.reverse :: splitWSAux [] cs
    else splitWSAux (c :: acc) cs

/-- Models Python `str.split()` with no argument: split on runs of
whitespace, discarding empty tokens. -/
def splitWS (l : List Char) : List (List Char) := splitWSAux [] l

/-- Hexadecimal value of one character, if any. -/
def hexVal (c : Char) : Option Nat :=
  if '0' ≤ c ∧ c ≤ '9' then some (c.toNat - '0'.toNat)
  else if 'a' ≤ c ∧ c ≤ 'f' then some (c.toNat - 'a'.toNat + 10)
  else if 'A' ≤ c ∧ c ≤ 'F' then some (c.toNat - 'A'.toNat + 10)
  else none

/-- Models Python `bytes.fromhex`: pairs of hex digits, with ASCII
whitespace permitted between byte pairs (but not inside a pair); any other
character, or a trailing lone digit, is a `ValueError`, modelled as
`none`. -/
def fromhexChars : List Char → Option (List Nat)
  | [] => some []
  | c :: rest =>
    if c.isWhitespace then fromhexChars rest
    else
      match rest with
      | [] => none
      | c2 :: rest2 =>
        match hexVal c, hexVal c2 with
        | some h, some l => (fromhexChars rest2).map (fun bs => (h * 16 + l) :: bs)
        | _, _ => none

/-- Models Python `.replace(' ', '')`. -/
def replaceSpace (l : List Char) : List Char := l.filter (fun c => c ≠ ' ')

/-- Digit accumulator for `parseIntChars`. -/
def parseDigitsAux : Nat → List Char → Option Nat
  | acc, [] => some acc
  | acc, c :: rest =>
    if '0' ≤ c ∧ c ≤ '9' then parseDigitsAux (acc * 10 + (c.toNat - '0'.toNat)) rest
    else none

/-- Models Python `int(str)` on the whitespace-free tokens the source
feeds it: an optional sign followed by at least one decimal digit
(Python additionally tolerates underscores between digits and unicode
digits; such tokens are modelled as failures, which only narrows the set
of accepted dumps and affects none of the properties proved here). -/
def parseIntChars : List Char → Option Int
  | [] => none
  | c :: rest =>
    if c = '-' then
      match rest with
      | [] => none
      | _ => (parseDigitsAux 0 rest).map (fun n => -(n : Int))
    else if c = '+' then
      match rest with
      | [] => none
      | _ => (parseDigitsAux 0 rest).map (fun n => (n : Int))
    else (parseDigitsAux 0 (c :: rest)).map (fun n => (n : Int))

/-- Models assignment to a Python dict key: an existing key keeps its
position in insertion order and gets the new value, a new key is appended.
`data_pages` in `_parse_flipper_format` is such a dict with the page
number as key. -/
def updatePage (m : List (Int × List Nat)) (k : Int) (v : List Nat) : List (Int × List Nat) :=
  match m with
  | [] => [(k, v)]
  | (k0, v0) :: rest => if k0 = k then (k0, v) :: rest else (k0, v0) :: updatePage rest k v

/-- Models one iteration of the line loop of
`NFCWriter._parse_flipper_format`: strip the line; a `UID:` line replaces
the UID bytes; a `Page N:` line parses the page number with `int` and the
payload with `bytes.fromhex` and stores them in the page dict; any other
line is ignored. A parsing exception (`none`) aborts the whole call, as
the Python exception would. -/
def parseLine (st : List Nat × List (Int × List Nat)) (rawLine : List Char) :
    Option (List Nat × List (Int × List Nat)) :=
  if startsWithChars ('U' :: 'I' :: 'D' :: ':' :: []) (trimChars rawLine) then
    match splitFirst ':' (trimChars rawLine) with
    | some (_, rest) =>
        (fromhexChars (replaceSpace (trimChars rest))).map (fun u => (u, st.2))
    | none => none
  else if startsWithChars ('P' :: 'a' :: 'g' :: 'e' :: ' ' :: []) (trimChars rawLine) then
    match splitFirst ':' (trimChars rawLine) with
    | none => some st
    | some (before, after) =>
      match splitWS before with
      | _ :: numTok :: _ =>
        match parseIntChars numTok, fromhexChars (replaceSpace (trimChars after)) with
        | some pn, some bs => some (st.1, updatePage st.2 pn bs)
        | _, _ => none
      | _ => none
  else some st

/-- Folds `parseLine` over all lines, propagating a parse failure. -/
def foldLines (st : List Nat × List (Int × List Nat)) :
    List (List Char) → Option (List Nat × List (Int × List Nat))
  | [] => some st
  | l :: ls =>
    match parseLine st l with
    | some st2 => foldLines st2 ls
    | none => none

/-- Models CPython index resolution for a simple (step-1) slice bound on a
sequence of length `n`: negative indices count from the end and both ends
are clamped into `[0, n]`. -/
def resolveIdx (n : Nat) (i : Int) : Nat :=
  if i < 0 then ((n : Int) + i).toNat else min i.toNat n

/-- Models CPython simple-slice assignment `buf[start:stop] = repl` on a
`bytearray`: the (clamped) slice is replaced by `repl`, inserting at the
start position when the resolved stop precedes the resolved start. The
buffer length changes by `repl.length` minus the replaced length. -/
def sliceAssign (buf : List Nat) (start stop : Int) (repl : List Nat) : List Nat :=
  buf.take (resolveIdx buf.length start) ++ repl ++
    buf.drop (max (resolveIdx buf.length stop) (resolveIdx buf.length start))

/-- Models one iteration of the reconstruction loop of
`_parse_flipper_format`: `offset = page_num * 4`, and when
`offset + len(page_data) <= len(raw_data)` the slice assignment
`raw_data[offset : offset + len(page_data)] = page_data` is performed,
otherwise the entry is skipped. -/
def writePageData (buf : List Nat) (entry : Int × List Nat) : List Nat :=
  if entry.1 * 4 + entry.2.length ≤ (buf.length : Int) then
    sliceAssign buf (entry.1 * 4) (entry.1 * 4 + entry.2.length) entry.2
  else buf

/-- Models the buffer reconstruction of `_parse_flipper_format`: fold the
page dict, in insertion order, over a zero-initialized 540-byte buffer. -/
def buildRaw (pages : List (Int × List Nat)) : List Nat :=
  pages.foldl writePageData (List.replicate 540 0)

/-- Models `NFCWriter._parse_flipper_format(content, character_name)`:
split into lines, collect the UID bytes and the page dict, raise
(`none`) when no UID line produced any bytes, else build the 540-byte
image. The source stores the UID as its upper-case hex string; the bytes
are kept here. -/
def parse_flipper_format (content : List Char) (character_name : List Char) :
    Option Amiibo :=
  match foldLines ([], []) (splitOnChar '\x0a' content) with
  | none => none
  | some (uid, pages) =>
    if uid.isEmpty then none
    else some ⟨buildRaw pages, uid, character_name⟩

/-- Models `NFCWriter.load_amiibo` on file content already read: only the
Flipper format (leading marker `Filetype: Flipper`) is accepted and handed
to `parse_flipper_format`. -/
def load_amiibo (content : List Char) (character_name : List Char) : Option Amiibo :=
  if startsWithChars ("Filetype: Flipper".toList) content then
    parse_flipper_format content character_name
  else none

/-- A key in an updated page dict is the new key or one already present. -/
theorem updatePage_key_mem (k : Int) (v : List Nat) :
    ∀ (m : List (Int × List Nat)) e, e ∈ updatePage m k v →
      e.1 = k ∨ e.1 ∈ m.map Prod.fst := by
  intro m
  induction m with
  | nil =>
    intro e he
    simp [updatePage] at he
    simp [he]
  | cons e0 rest ih =>
    obtain ⟨k0, v0⟩ := e0
    intro e he
    unfold updatePage at he
    split at he
    next heq =>
      rcases List.mem_cons.mp he with rfl | hr
      · left; exact heq
      · right
        exact List.mem_cons_of_mem _ (List.mem_map_of_mem Prod.fst hr)
    next hne =>
      rcases List.mem_cons.mp he with rfl | hr
      · right; simp
      · rcases ih e hr with h1 | h1
        · left; exact h1
        · right
          exact List.mem_cons_of_mem _ h1

/-- Updating a dict entry preserves distinctness of its keys. -/
theorem updatePage_pairwise (k : Int) (v : List Nat) :
    ∀ (m : List (Int × List Nat)),
      List.Pairwise (fun a b => a.1 ≠ b.1) m →
      List.Pairwise (fun a b => a.1 ≠ b.1) (updatePage m k v) := by
  intro m
  induction m with
  | nil => intro _; simp [updatePage]
  | cons e0 rest ih =>
    obtain ⟨k0, v0⟩ := e0
    intro h
    rw [List.pairwise_cons] at h
    unfold updatePage
    split
    next heq =>
      rw [List.pairwise_cons]
      exact ⟨h.1, h.2⟩
    next hne =>
      rw [List.pairwise_cons]
      refine ⟨?_, ih h.2⟩
      intro b hb
      rcases updatePage_key_mem k v rest b hb with h1 | h1
      · rw [h1]; exact hne
      · obtain ⟨x, hx, hx1⟩ := List.mem_map.mp h1
        rw [← hx1]
        exact h.1 x hx

/-- One parsed line preserves distinctness of the page-dict keys. -/
theorem parseLine_pairwise (st : List Nat × List (Int × List Nat)) (l : List Char)
    (st2 : List Nat × List (Int × List Nat))
    (h : parseLine st l = some st2)
    (hd : List.Pairwise (fun a b => a.1 ≠ b.1) st.2) :
    List.Pairwise (fun a b => a.1 ≠ b.1) st2.2 := by
  unfold parseLine at h
  split at h
  · split at h
    next heq =>
      rcases Option.map_eq_some'.mp h with ⟨u, hu, hst⟩
      rw [← hst]
      exact hd
    next => cases h
  · split at h
    · split at h
      next => cases h; exact hd
      next heq =>
        split at h
        next =>
          split at h
          next pn bs hpn hbs =>
            injection h with h2
            rw [← h2]
            exact updatePage_pairwise pn bs st.2 hd
          next => cases h
        next => cases h
    · injection h with h2
      rw [← h2]
      exact hd

/-- The page dict produced by the line loop has pairwise distinct keys
(the defining dict invariant). -/
theorem foldLines_pairwise :
    ∀ (lines : List (List Char)) (st : List Nat × List (Int × List Nat))
      (uid : List Nat) (pages : List (Int × List Nat)),
      foldLines st lines = some (uid, pages) →
      List.Pairwise (fun a b => a.1 ≠ b.1) st.2 →
      List.Pairwise (fun a b => a.1 ≠ b.1) pages := by
  intro lines
  induction lines with
  | nil =>
    intro st uid pages h hd
    unfold foldLines at h
    injection h with h2
    rw [h2] at hd
    exact hd
  | cons l ls ih =>
    intro st uid pages h hd
    unfold foldLines at h
    split at h
    next st2 heq => exact ih st2 uid pages h (parseLine_pairwise st l st2 heq hd)
    next => cases h

/-- On a nonnegative in-bounds index, CPython slice-bound resolution is
plain truncation. -/
theorem resolveIdx_nonneg (n : Nat) (i : Int) (h0 : 0 ≤ i) (hn : i ≤ (n : Int)) :
    resolveIdx n i = i.toNat := by
  unfold resolveIdx
  rw [if_neg (by omega)]
  omega

/-- Writing one dict entry with a nonnegative page number never changes
the buffer length. -/
theorem writePageData_length (buf : List Nat) (e : Int × List Nat) (hk : 0 ≤ e.1) :
    (writePageData buf e).length = buf.length := by
  unfold writePageData
  split
  next hg =>
    unfold sliceAssign
    rw [resolveIdx_nonneg _ _ (by omega) (by omega),
        resolveIdx_nonneg _ _ (by omega) (by omega),
        Nat.max_eq_left (by omega)]
    simp only [List.length_append, List.length_take, List.length_drop]
    omega
  next => rfl

/-- Folding dict entries with nonnegative page numbers never changes the
buffer length. -/
theorem foldl_writePageData_length :
    ∀ (pages : List (Int × List Nat)) (buf : List Nat),
      (∀ e ∈ pages, 0 ≤ e.1) →
      (pages.foldl writePageData buf).length = buf.length := by
  intro pages
  induction pages with
  | nil => intro buf _; rfl
  | cons e rest ih =>
    intro buf h
    rw [List.foldl_cons,
        ih _ (fun x hx => h x (List.mem_cons_of_mem _ hx)),
        writePageData_length buf e (h e (List.mem_cons_self _ _))]

/-- Writing one in-guard entry with a nonnegative page number leaves
positions outside its target range unchanged (and an out-of-guard entry
leaves everything unchanged). -/
theorem writePageData_getD_out (buf : List Nat) (e : Int × List Nat) (hk : 0 ≤ e.1)
    (i : Nat)
    (hout : e.1 * 4 + e.2.length ≤ (buf.length : Int) →
      i < e.1.toNat * 4 ∨ e.1.toNat * 4 + e.2.length ≤ i) :
    (writePageData buf e).getD i 0 = buf.getD i 0 := by
  unfold writePageData
  split
  next hg =>
    unfold sliceAssign
    rw [resolveIdx_nonneg _ _ (by omega) (by omega),
        resolveIdx_nonneg _ _ (by omega) (by omega),
        Nat.max_eq_left (by omega)]
    simp only [List.getD_eq_getElem?_getD]
    rcases hout hg with hlt | hge
    · rw [List.getElem?_append_left
            (by simp only [List.length_append, List.length_take]; omega),
          List.getElem?_append_left
            (by simp only [List.length_take]; omega),
          List.getElem?_take_of_lt (by omega)]
    · rw [List.getElem?_append_right
            (by simp only [List.length_append, List.length_take]; omega),
          List.getElem?_drop]
      have hidx : (e.1 * 4 + (e.2.length : Int)).toNat +
          (i - (List.take (e.1 * 4).toNat buf ++ e.2).length) = i := by
        simp only [List.length_append, List.length_take]
        omega
      rw [hidx]
  next => rfl

/-- Writing one in-guard entry with a nonnegative page number stores the
payload bytes at `page*4`. -/
theorem writePageData_getD_in (buf : List Nat) (e : Int × List Nat) (hk : 0 ≤ e.1)
    (hg : e.1 * 4 + e.2.length ≤ (buf.length : Int)) (j : Nat) (hj : j < e.2.length) :
    (writePageData buf e).getD (e.1.toNat * 4 + j) 0 = e.2.getD j 0 := by
  unfold writePageData
  rw [if_pos hg]
  unfold sliceAssign
  rw [resolveIdx_nonneg _ _ (by omega) (by omega),
      resolveIdx_nonneg _ _ (by omega) (by omega),
      Nat.max_eq_left (by omega)]
  simp only [List.getD_eq_getElem?_getD]
  rw [List.getElem?_append_left
        (by simp only [List.length_append, List.length_take]; omega),
      List.getElem?_append_right
        (by simp only [List.length_take]; omega)]
  have hidx : e.1.toNat * 4 + j - (List.take (e.1 * 4).toNat buf).length = j := by
    simp only [List.length_take]
    omega
  rw [hidx]

/-- Folding dict entries with nonnegative page numbers leaves a position
untouched when it lies outside the target range of every in-guard
entry. -/
theorem foldl_getD_out :
    ∀ (pages : List (Int × List Nat)) (buf : List Nat) (i : Nat),
      (∀ e ∈ pages, 0 ≤ e.1) →
      (∀ e ∈ pages, e.1 * 4 + e.2.length ≤ (buf.length : Int) →
        i < e.1.toNat * 4 ∨ e.1.toNat * 4 + e.2.length ≤ i) →
      (pages.foldl writePageData buf).getD i 0 = buf.getD i 0 := by
  intro pages
  induction pages with
  | nil => intro buf i _ _; rfl
  | cons e rest ih =>
    intro buf i hnn hout
    rw [List.foldl_cons]
    rw [ih _ i (fun x hx => hnn x (List.mem_cons_of_mem _ hx)) ?later]
    · exact writePageData_getD_out buf e (hnn e (List.mem_cons_self _ _)) i
        (hout e (List.mem_cons_self _ _))
    case later =>
      intro x hx hg
      rw [writePageData_length buf e (hnn e (List.mem_cons_self _ _))] at hg
      exact hout x (List.mem_cons_of_mem _ hx) hg

/-- Folding dict entries with distinct nonnegative page numbers and
4-byte payloads stores each in-guard entry's bytes at `page*4`, and later
entries never overwrite them. -/
theorem foldl_getD_in :
    ∀ (pages : List (Int × List Nat)) (buf : List Nat),
      (∀ x ∈ pages, 0 ≤ x.1 ∧ x.2.length = 4) →
      List.Pairwise (fun a b => a.1 ≠ b.1) pages →
      ∀ e ∈ pages, e.1 * 4 + e.2.length ≤ (buf.length : Int) →
      ∀ j, j < e.2.length →
      (pages.foldl writePageData buf).getD (e.1.toNat * 4 + j) 0 = e.2.getD j 0 := by
  intro pages
  induction pages with
  | nil => intro buf _ _ e he; cases he
  | cons e0 rest ih =>
    intro buf hx hpw e he hg j hj
    have hpw2 := List.pairwise_cons.mp hpw
    rw [List.foldl_cons]
    rcases List.mem_cons.mp he with rfl | hmem
    · rw [foldl_getD_out rest (writePageData buf e) (e.1.toNat * 4 + j)
            (fun x hxr => (hx x (List.mem_cons_of_mem _ hxr)).1) ?disj]
      · exact writePageData_getD_in buf e (hx e (List.mem_cons_self _ _)).1 hg j hj
      case disj =>
        intro x hxr hgx
        have hxnn := (hx x (List.mem_cons_of_mem _ hxr)).1
        have hxlen := (hx x (List.mem_cons_of_mem _ hxr)).2
        have hene := hpw2.1 x hxr
        have helen := (hx e (List.mem_cons_self _ _)).2
        have henn := (hx e (List.mem_cons_self _ _)).1
        have hkne : e.1.toNat ≠ x.1.toNat := by omega
        rw [hxlen]
        rw [helen] at hj
        omega
    · rw [ih (writePageData buf e0)
            (fun x hxr => hx x (List.mem_cons_of_mem _ hxr)) hpw2.2 e hmem ?glen j hj]
      case glen =>
        rw [writePageData_length buf e0 (hx e0 (List.mem_cons_self _ _)).1]
        exact hg

/-- The reconstructed buffer keeps its 540 bytes when every page number is
nonnegative. -/
theorem buildRaw_length (pages : List (Int × List Nat))
    (hnn : ∀ e ∈ pages, 0 ≤ e.1) : (buildRaw pages).length = 540 := by
  unfold buildRaw
  rw [foldl_writePageData_length pages _ hnn, List.length_replicate]

/-- Any byte of the zero buffer is zero. -/
theorem replicate_getD_zero (n i : Nat) : (List.replicate n (0 : Nat)).getD i 0 = 0 := by
  simp only [List.getD_eq_getElem?_getD, List.getElem?_replicate]
  split <;> rfl

/-- The dump text of Scenario A. -/
def c9Text : List Char :=
  ("Filetype: Flipper...\nUID: 04 AA BB CC DD EE FF\nPage 4: 01 02 03 04\n").toList

/-- The 540-byte image Scenario A expects: bytes 16..19 are 01 02 03 04,
all others zero. -/
def c9Expected : List Nat :=
  List.replicate 16 0 ++ [0x01, 0x02, 0x03, 0x04] ++ List.replicate 520 0

set_option maxRecDepth 10000 in
/-- C9: parsing the Scenario A dump text succeeds and yields the 540-byte
image whose bytes at offsets 16..19 are 01 02 03 04 and whose every other
byte is zero (with the UID bytes 04 AA BB CC DD EE FF); and in general,
for any dump text whose parsed page dict carries nonnegative page numbers
with 4 bytes each, every in-range page's bytes are copied to offset
`page*4` in the zero-initialized 540-byte buffer and every byte outside
the copied ranges (in particular every absent page) remains zero. -/
theorem C9_parse_scenario :
    (load_amiibo c9Text ['n'] =
        some ⟨c9Expected, [0x04, 0xAA, 0xBB, 0xCC, 0xDD, 0xEE, 0xFF], ['n']⟩ ∧
      c9Expected.length = 540) ∧
    (∀ (content : List Char) (uid : List Nat) (pages : List (Int × List Nat)),
      foldLines ([], []) (splitOnChar '\x0a' content) = some (uid, pages) →
      (∀ x ∈ pages, 0 ≤ x.1 ∧ x.2.length = 4) →
      (buildRaw pages).length = 540 ∧
      (∀ e ∈ pages, e.1.toNat * 4 + 4 ≤ 540 → ∀ j, j < 4 →
        (buildRaw pages).getD (e.1.toNat * 4 + j) 0 = e.2.getD j 0) ∧
      (∀ i, i < 540 →
        (∀ e ∈ pages, e.1.toNat * 4 + 4 ≤ 540 →
          ¬(e.1.toNat * 4 ≤ i ∧ i < e.1.toNat * 4 + 4)) →
        (buildRaw pages).getD i 0 = 0)) := by
  constructor
  · exact ⟨by decide, by decide⟩
  · intro content uid pages hfold hx
    have hnn : ∀ e ∈ pages, 0 ≤ e.1 := fun e he => (hx e he).1
    have hpw := foldLines_pairwise (splitOnChar '\x0a' content) ([], []) uid pages
      hfold (by simp)
    refine ⟨buildRaw_length pages hnn, ?_, ?_⟩
    · intro e he hle j hj
      unfold buildRaw
      refine foldl_getD_in pages _ hx hpw e he ?_ j ?_
      · rw [List.length_replicate]
        have h0 := (hx e he).1
        have h4 := (hx e he).2
        omega
      · rw [(hx e he).2]
        exact hj
    · intro i hi hout
      unfold buildRaw
      rw [foldl_getD_out pages _ i hnn ?out2]
      · exact replicate_getD_zero 540 i
      case out2 =>
        intro e he hg
        rw [List.length_replicate] at hg
        have h4 := (hx e he).2
        have h0 := (hx e he).1
        have hne := hout e he (by omega)
        omega

set_option maxRecDepth 10000 in
theorem C9_witness :
    (buildRaw [((4 : Int), [0x01, 0x02, 0x03, 0x04])]).length = 540 ∧
    (buildRaw [((4 : Int), [0x01, 0x02, 0x03, 0x04])]).getD
      ((4 : Int).toNat * 4 + 0) 0 = ([0x01, 0x02, 0x03, 0x04] : List Nat).getD 0 0 ∧
    (buildRaw [((4 : Int), [0x01, 0x02, 0x03, 0x04])]).getD 0 0 = 0 := by
  have h := C9_parse_scenario.2 c9Text [0x04, 0xAA, 0xBB, 0xCC, 0xDD, 0xEE, 0xFF]
    [((4 : Int), [0x01, 0x02, 0x03, 0x04])] (by decide) (by decide)
  refine ⟨h.1, ?_, ?_⟩
  · exact h.2.1 ((4 : Int), [0x01, 0x02, 0x03, 0x04]) (List.mem_cons_self _ _)
      (by decide) 0 (by decide)
  · refine h.2.2 0 (by decide) ?_
    intro e he hle
    rw [List.mem_singleton] at he
    rw [he]
    decide

/-- A dump text that contains a UID line but also a negative page number
line, which CPython slice assignment turns into an insertion. -/
def c10Text : List Char :=
  ("Filetype: Flipper\nUID: 04 AA\nPage -1: 01 02 03 04\n").toList

set_option maxRecDepth 10000 in
/-- C10 counterexample: the input text
`Filetype: Flipper\nUID: 04 AA\nPage -1: 01 02 03 04\n` contains a UID
line yet parses to an image of 544 bytes, not 540: `int` accepts the
negative page number `-1`, the guard `-4 + 4 <= 540` passes, and the
bytearray slice assignment `raw_data[-4:0] = page_data` resolves to the
empty slice at position 536 and inserts the four bytes, growing the
buffer. -/
theorem C10_counterexample :
    (load_amiibo c10Text ['x']).map (fun a => a.raw_data.length) = some 544 ∧
    (544 : Nat) ≠ 540 := by
  exact ⟨by decide, by decide⟩

/-- C10 amended: for every input text whose Page lines all carry
nonnegative page numbers, a successful parse yields a raw image of
exactly 540 bytes: a nonnegative Page line whose bytes would extend past
offset 540 is silently dropped by the `offset + len <= 540` guard rather
than growing the buffer or raising. (Negative page numbers, which the
source also accepts, can grow the buffer — see the counterexample.) -/
theorem C10_image_length (content name : List Char) (uid : List Nat)
    (pages : List (Int × List Nat)) (img : Amiibo)
    (hfold : foldLines ([], []) (splitOnChar '\x0a' content) = some (uid, pages))
    (hnn : ∀ e ∈ pages, 0 ≤ e.1)
    (hparse : parse_flipper_format content name = some img) :
    img.raw_data.length = 540 := by
  unfold parse_flipper_format at hparse
  rw [hfold] at hparse
  change (if uid.isEmpty = true then none
      else some (Amiibo.mk (buildRaw pages) uid name)) = some img at hparse
  split at hparse
  · cases hparse
  · injection hparse with h2
    rw [← h2]
    exact buildRaw_length pages hnn

set_option maxRecDepth 10000 in
theorem C10_witness :
    (Amiibo.mk (buildRaw [((4 : Int), [0x01, 0x02, 0x03, 0x04])])
      [0x04, 0xAA, 0xBB, 0xCC, 0xDD, 0xEE, 0xFF] ['n']).raw_data.length = 540 :=
  C10_image_length c9Text ['n'] [0x04, 0xAA, 0xBB, 0xCC, 0xDD, 0xEE, 0xFF]
    [((4 : Int), [0x01, 0x02, 0x03, 0x04])]
    (Amiibo.mk (buildRaw [((4 : Int), [0x01, 0x02, 0x03, 0x04])])
      [0x04, 0xAA, 0xBB, 0xCC, 0xDD, 0xEE, 0xFF] ['n'])
    (by decide) (by decide) (by decide)
